import Mathlib

/-!
Shallow embedding of the dead-link-aware pagination engine of
`cccatalog/api/controllers/search_controller.py`: the slice computation
`_paginate_with_dead_link_mask` / `_get_query_slice`, the recursive widening
post-processor `_post_process_results`, the count adjustment
`_get_result_and_page_count`, and the quote escaping `_quote_escape`,
together with the portion of `search` that composes them.

Machine integers are modelled as `Nat` (Python integers are unbounded, so no
overflow is involved); Python `ValueError` is modelled with `Except`/`Option`.
The liveness mask produced by `get_query_mask` and the dead-link filtering of
`validate_images` live outside this tree and are modelled from the spec where
noted.
-/

/-- Index window ceiling `ELASTICSEARCH_MAX_RESULT_WINDOW = 10000`. -/
def ELASTICSEARCH_MAX_RESULT_WINDOW : Nat := 10000

/-- Worst-case fraction of results expected dead: ` DEAD_LINK_RATIO = 1 / 2`. -/
def DEAD_LINK_RATIO : ℚ := 1 / 2

/-- Message of the deliberate deep-pagination failure. -/
def DEEP_PAGINATION_ERROR : String := "Deep pagination is not allowed."

/-- Running prefix sums starting from a carry `acc`; `accumulateFrom 0`
embeds Python's `itertools.accumulate` on a list of naturals. -/
def accumulateFrom (acc : Nat) : List Nat → List Nat
  | [] => []
  | x :: xs => (acc + x) :: accumulateFrom (acc + x) xs

/-- Python `itertools.accumulate` (running prefix sums). -/
def accumulate (l : List Nat) : List Nat := accumulateFrom 0 l

/-- Python `list.index(v)`: index of the first occurrence of `v`, with `none`
where Python raises `ValueError`. -/
def indexOfVal (v : Nat) : List Nat → Option Nat
  | [] => none
  | x :: xs => if x = v then some 0 else (indexOfVal v xs).map (fun i => i + 1)

/-- Modelled from the spec: the liveness mask returned by `get_query_mask`
(`cccatalog/api/utils/dead_link_mask.py`, not part of this tree) is an ordered
sequence of 0/1 entries indexed by result rank, 1 = live.  We carry it as a
`List Bool` and convert to the stored integer form with `maskInts`. -/
def maskInts (mask : List Bool) : List Nat :=
  mask.map (fun b => if b then 1 else 0)

/-- Python `sum(query_mask)`: total number of live ranks the mask records. -/
def liveCount (mask : List Bool) : Nat := (maskInts mask).sum

/-- Number of live ranks among the first `j` positions of the mask. -/
def liveUpTo (mask : List Bool) (j : Nat) : Nat := liveCount (mask.take j)

/-- Whether rank `r` is recorded live (ranks beyond the mask count as dead). -/
def maskLive (mask : List Bool) (r : Nat) : Bool := mask.getD r false

/-- Cumulative live count through rank `r`: if `r` is live, `liveIdx mask r`
is the ordinal of rank `r` in the sequence of live ranks (1-based). -/
def liveIdx (mask : List Bool) (r : Nat) : Nat := liveUpTo mask (r + 1)

/-- Worst-case inflated window size
`ceil(page_size * page / (1 - DEAD_LINK_RATIO))`. -/
def inflatedEnd (pageSize page : Nat) : Nat :=
  ⌈((pageSize * page : Nat) : ℚ) / (1 - DEAD_LINK_RATIO)⌉₊

/-- Embedding of `_paginate_with_dead_link_mask` (lines 36-67).  The query
hash lookup is replaced by passing the mask directly; `none` models an
uncaught `ValueError` escaping from `list.index`. -/
def paginateWithDeadLinkMask (mask : List Bool) (pageSize page : Nat) :
    Option (Nat × Nat) :=
  if mask = [] then
    some (0, inflatedEnd pageSize page)
  else if liveCount mask < pageSize * (page - 1) then
    some (mask.length, inflatedEnd pageSize page)
  else
    let accu := accumulate (maskInts mask)
    let startOpt : Option Nat :=
      if 1 < page then
        match indexOfVal (pageSize * (page - 1) + 1) accu with
        | some i => some i
        | none => (indexOfVal (pageSize * (page - 1)) accu).map (fun i => i + 1)
      else some 0
    let endOpt : Option Nat :=
      if liveCount mask < pageSize * page then
        some (inflatedEnd pageSize page)
      else (indexOfVal (pageSize * page) accu).map (fun i => i + 1)
    match startOpt, endOpt with
    | some st, some en => some (st, en)
    | _, _ => none

/-- The slice `_get_query_slice` computes before its window check: the masked
slice when `filter_dead`, else `(page_size * (page - 1), page_size * page)`. -/
def rawSlice (mask : List Bool) (pageSize page : Nat) (filterDead : Bool) :
    Option (Nat × Nat) :=
  if filterDead then paginateWithDeadLinkMask mask pageSize page
  else some (pageSize * (page - 1), pageSize * page)

/-- Embedding of `_get_query_slice` (lines 70-84): compute the slice, then
raise the deep-pagination error when `start_slice + end_slice` exceeds the
window. -/
def getQuerySlice (mask : List Bool) (pageSize page : Nat) (filterDead : Bool) :
    Except String (Nat × Nat) :=
  match rawSlice mask pageSize page filterDead with
  | none => Except.error "ValueError"
  | some (startSlice, endSlice) =>
    if startSlice + endSlice > ELASTICSEARCH_MAX_RESULT_WINDOW then
      Except.error DEEP_PAGINATION_ERROR
    else
      Except.ok (startSlice, endSlice)

/-- A ranked hit.  Only the fields the pagination logic observes are carried:
the identifier, and (modelled from the spec) the alive/dead classification
that `validate_images` (`cccatalog/api/utils/validate_images.py`, not part of
this tree) would assign to the hit's resource URL. -/
structure Hit where
  identifier : Nat
  live : Bool
deriving DecidableEq

/-- The hits the index returns for the slice request `s[start:end]`: the ranks
in `[start, end)` of the index's total ordering. -/
def sliceHits (hits : List Hit) (start end_ : Nat) : List Hit :=
  (hits.drop start).take (end_ - start)

/-- Embedding of `_post_process_results` (lines 99-166).  The per-hit
decoration (detail URL, `fields_matched`, thumbnail proxying) neither adds,
drops nor reorders hits and is omitted; `validate_images` is modelled from
the spec as dropping exactly the hits classified dead.  The recursion is run
on `fuel`; the first component is `none` when `fuel` runs out, and the second
component is the trace of the extra slice queries executed by widening. -/
def postProcessResults (fuel : Nat) (hits : List Hit)
    (start end_ pageSize : Nat) (searchResults : List Hit)
    (filterDead : Bool) : Option (List Hit) × List (Nat × Nat) :=
  match fuel with
  | 0 => (none, [])
  | Nat.succ fuel =>
    let results := searchResults
    if filterDead then
      let results := results.filter (fun r => r.live)
      if results.length < pageSize then
        let end' := end_ + end_ / 2
        if start + end' > ELASTICSEARCH_MAX_RESULT_WINDOW then
          (some results, [])
        else
          let deeper := postProcessResults fuel hits start end' pageSize
            (sliceHits hits start end') filterDead
          (deeper.1, (start, end') :: deeper.2)
      else
        (some (results.take pageSize), [])
    else
      (some (results.take pageSize), [])

/-- The pagination/execution portion of `search` (lines 312-330): compute the
slice, execute the index query over it, post-process.  Query building, the
provider-exclusion filter and the count computation surround this part in the
source and do not affect which slice queries run.  The second component is
the trace of slice queries actually executed against the index. -/
def search (hits : List Hit) (mask : List Bool) (pageSize page : Nat)
    (filterDead : Bool) (fuel : Nat) :
    Except String (List Hit) × List (Nat × Nat) :=
  match getQuerySlice mask pageSize page filterDead with
  | Except.error e => (Except.error e, [])
  | Except.ok (start, end_) =>
    let searchResponse := sliceHits hits start end_
    let post := postProcessResults fuel hits start end_ pageSize
      searchResponse filterDead
    match post.1 with
    | none => (Except.error "recursion limit", (start, end_) :: post.2)
    | some results => (Except.ok results, (start, end_) :: post.2)

/-- The `last_allowed_page` of `_get_result_and_page_count`:
`int((5000 + page_size / 2) / page_size)` in exact arithmetic. -/
def lastAllowedPage (pageSize : Nat) : Nat :=
  ⌊(5000 + (pageSize : ℚ) / 2) / (pageSize : ℚ)⌋₊

/-- Embedding of `_get_result_and_page_count` (lines 469-486): returns
`(result_count, page_count)` given the index's raw total hit count and the
filtered results. -/
def getResultAndPageCount (totalHits : Nat) (results : List Hit)
    (pageSize : Nat) : Nat × Nat :=
  let resultCount := totalHits
  let naturalPageCount := resultCount / pageSize
  let pageCount := min naturalPageCount (lastAllowedPage pageSize)
  if results.length < pageSize ∧ pageCount = 0 then
    (results.length, pageCount)
  else
    (resultCount, pageCount)

/-- Python `query_string.count` for the double-quote character, on strings
modelled as `List Char`. -/
def countQuotes (s : List Char) : Nat :=
  (s.filter (fun c => c = '"')).length

/-- One step of Python `str.replace` for quotes: a double quote becomes a
backslash followed by a double quote, other characters are unchanged. -/
def escapeQuoteChar (c : Char) : List Char :=
  if c = '"' then ['\\', '"'] else [c]

/-- Embedding of `_quote_escape` (lines 87-96). -/
def quoteEscape (s : List Char) : List Char :=
  if countQuotes s % 2 = 1 then s.flatMap escapeQuoteChar else s

/-! ### Arithmetic bridges for the two float formulas -/

/-- With ` DEAD_LINK_RATIO = 1/2` the inflated window size is exactly
`2 * page_size * page`. -/
theorem inflatedEnd_eq (pageSize page : Nat) :
    inflatedEnd pageSize page = 2 * (pageSize * page) := by
  unfold inflatedEnd
  rw [show ((pageSize * page : Nat) : ℚ) / (1 - DEAD_LINK_RATIO)
      = ((2 * (pageSize * page) : Nat) : ℚ) by
    rw [ DEAD_LINK_RATIO]; push_cast; ring]
  exact Nat.ceil_natCast _

/-- `int((5000 + page_size / 2) / page_size)` in natural-number form. -/
theorem lastAllowedPage_eq (pageSize : Nat) :
    lastAllowedPage pageSize = (10000 + pageSize) / (2 * pageSize) := by
  unfold lastAllowedPage
  rcases Nat.eq_zero_or_pos pageSize with h | h
  · subst h; norm_num
  · have hps : (pageSize : ℚ) ≠ 0 := by positivity
    rw [show (5000 + (pageSize : ℚ) / 2) / (pageSize : ℚ)
        = ((10000 + pageSize : Nat) : ℚ) / ((2 * pageSize : Nat) : ℚ) by
      push_cast; field_simp; ring]
    exact Nat.floor_div_nat _ _

/-! ### Basic facts about `accumulate` and `indexOfVal` -/

theorem accumulateFrom_length (acc : Nat) (l : List Nat) :
    (accumulateFrom acc l).length = l.length := by
  induction l generalizing acc with
  | nil => rfl
  | cons x xs ih => simp [accumulateFrom, ih]

theorem accumulateFrom_getElem? (acc : Nat) (l : List Nat) (i : Nat)
    (h : i < l.length) :
    (accumulateFrom acc l)[i]? = some (acc + (l.take (i + 1)).sum) := by
  induction l generalizing acc i with
  | nil => simp at h
  | cons x xs ih =>
    cases i with
    | zero => simp [accumulateFrom]
    | succ i =>
      have hi : i < xs.length := by simpa using h
      simp [accumulateFrom, ih (acc + x) i hi, Nat.add_assoc]

theorem indexOfVal_some (v : Nat) (l : List Nat) (i : Nat)
    (h : indexOfVal v l = some i) :
    l[i]? = some v ∧ ∀ j, j < i → l[j]? ≠ some v := by
  induction l generalizing i with
  | nil => simp [indexOfVal] at h
  | cons x xs ih =>
    by_cases hxv : x = v
    · rw [indexOfVal, if_pos hxv] at h
      obtain rfl : i = 0 := by simpa using h.symm
      subst hxv
      exact ⟨by simp, fun j hj => by omega⟩
    · rw [indexOfVal, if_neg hxv] at h
      obtain ⟨i', hi', rfl⟩ : ∃ i', indexOfVal v xs = some i' ∧ i = i' + 1 := by
        cases hx : indexOfVal v xs with
        | none => rw [hx] at h; simp at h
        | some j => rw [hx] at h; exact ⟨j, rfl, by simpa using h.symm⟩
      obtain ⟨hget, hmin⟩ := ih i' hi'
      refine ⟨by simpa using hget, fun j hj => ?_⟩
      cases j with
      | zero =>
        rw [List.getElem?_cons_zero]
        exact fun hc => hxv (Option.some.inj hc)
      | succ j =>
        rw [List.getElem?_cons_succ]
        exact hmin j (by omega)

theorem indexOfVal_none (v : Nat) (l : List Nat)
    (h : indexOfVal v l = none) : ∀ j : Nat, l[j]? ≠ some v := by
  induction l with
  | nil => intro j; simp
  | cons x xs ih =>
    intro j
    by_cases hxv : x = v
    · rw [indexOfVal, if_pos hxv] at h; simp at h
    · rw [indexOfVal, if_neg hxv] at h
      have hxs : indexOfVal v xs = none := by
        cases hx : indexOfVal v xs with
        | none => rfl
        | some i => rw [hx] at h; simp at h
      cases j with
      | zero =>
        rw [List.getElem?_cons_zero]
        exact fun hc => hxv (Option.some.inj hc)
      | succ j =>
        rw [List.getElem?_cons_succ]
        exact ih hxs j

/-! ### Facts about the liveness mask counters -/

theorem liveCount_cons_true (t : List Bool) :
    liveCount (true :: t) = 1 + liveCount t := by
  simp [liveCount, maskInts]

theorem liveCount_cons_false (t : List Bool) :
    liveCount (false :: t) = liveCount t := by
  simp [liveCount, maskInts]

theorem liveUpTo_zero (mask : List Bool) : liveUpTo mask 0 = 0 := by
  simp [liveUpTo, liveCount, maskInts]

theorem liveUpTo_cons_true (t : List Bool) (j : Nat) :
    liveUpTo (true :: t) (j + 1) = 1 + liveUpTo t j := by
  simp [liveUpTo, liveCount, maskInts]

theorem liveUpTo_cons_false (t : List Bool) (j : Nat) :
    liveUpTo (false :: t) (j + 1) = liveUpTo t j := by
  simp [liveUpTo, liveCount, maskInts]

theorem maskLive_cons_succ (b : Bool) (t : List Bool) (r : Nat) :
    maskLive (b :: t) (r + 1) = maskLive t r := by
  simp [maskLive]

theorem liveUpTo_succ_live (mask : List Bool) (r : Nat)
    (h : maskLive mask r = true) :
    liveUpTo mask (r + 1) = liveUpTo mask r + 1 := by
  induction mask generalizing r with
  | nil => simp [maskLive] at h
  | cons b t ih =>
    cases r with
    | zero =>
      have hb : b = true := by simpa [maskLive] using h
      subst hb
      rw [liveUpTo_cons_true, liveUpTo_zero, liveUpTo_zero]
    | succ r =>
      rw [maskLive_cons_succ] at h
      cases b with
      | true => rw [liveUpTo_cons_true, liveUpTo_cons_true, ih r h]; omega
      | false => rw [liveUpTo_cons_false, liveUpTo_cons_false, ih r h]

theorem liveUpTo_succ_dead (mask : List Bool) (r : Nat)
    (h : maskLive mask r = false) :
    liveUpTo mask (r + 1) = liveUpTo mask r := by
  induction mask generalizing r with
  | nil => simp [liveUpTo, liveCount, maskInts]
  | cons b t ih =>
    cases r with
    | zero =>
      have hb : b = false := by simpa [maskLive] using h
      subst hb
      rw [liveUpTo_cons_false, liveUpTo_zero, liveUpTo_zero]
    | succ r =>
      rw [maskLive_cons_succ] at h
      cases b with
      | true => rw [liveUpTo_cons_true, liveUpTo_cons_true, ih r h]
      | false => rw [liveUpTo_cons_false, liveUpTo_cons_false, ih r h]

theorem liveUpTo_succ_le (mask : List Bool) (r : Nat) :
    liveUpTo mask (r + 1) ≤ liveUpTo mask r + 1 := by
  cases h : maskLive mask r with
  | true => rw [liveUpTo_succ_live mask r h]
  | false => rw [liveUpTo_succ_dead mask r h]; omega

theorem liveUpTo_mono (mask : List Bool) {j j' : Nat} (h : j ≤ j') :
    liveUpTo mask j ≤ liveUpTo mask j' := by
  induction j' with
  | zero =>
    have : j = 0 := by omega
    subst this; exact le_refl _
  | succ j' ih =>
    rcases Nat.lt_or_ge j (j' + 1) with hlt | hge
    · have hle := ih (by omega)
      cases hb : maskLive mask j' with
      | true => rw [liveUpTo_succ_live mask j' hb]; omega
      | false => rw [liveUpTo_succ_dead mask j' hb]; omega
    · have : j = j' + 1 := by omega
      subst this; exact le_refl _

theorem liveUpTo_length (mask : List Bool) :
    liveUpTo mask mask.length = liveCount mask := by
  simp [liveUpTo]

theorem maskLive_lt_length (mask : List Bool) (r : Nat)
    (h : maskLive mask r = true) : r < mask.length := by
  by_contra hge
  rw [maskLive, List.getD_eq_default] at h
  · simp at h
  · omega

theorem liveIdx_pos (mask : List Bool) (r : Nat)
    (h : maskLive mask r = true) : 1 ≤ liveIdx mask r := by
  rw [liveIdx, liveUpTo_succ_live mask r h]
  omega

theorem liveIdx_strictMono (mask : List Bool) {r1 r2 : Nat} (h12 : r1 < r2)
    (h2 : maskLive mask r2 = true) :
    liveIdx mask r1 < liveIdx mask r2 := by
  rw [liveIdx, liveIdx, liveUpTo_succ_live mask r2 h2]
  have := liveUpTo_mono mask (show r1 + 1 ≤ r2 by omega)
  omega

theorem exists_liveIdx_eq (mask : List Bool) (k : Nat)
    (hk : 1 ≤ k) (hle : k ≤ liveCount mask) :
    ∃ r, maskLive mask r = true ∧ liveIdx mask r = k := by
  induction mask generalizing k with
  | nil => simp [liveCount, maskInts] at hle; omega
  | cons b t ih =>
    cases b with
    | true =>
      rw [liveCount_cons_true] at hle
      rcases Nat.eq_or_lt_of_le hk with h1 | h2
      · refine ⟨0, rfl, ?_⟩
        rw [liveIdx, liveUpTo_cons_true, liveUpTo_zero]
        omega
      · obtain ⟨r, hr, hidx⟩ := ih (k - 1) (by omega) (by omega)
        refine ⟨r + 1, by rwa [maskLive_cons_succ], ?_⟩
        rw [liveIdx, liveUpTo_cons_true]
        rw [liveIdx] at hidx
        omega
    | false =>
      rw [liveCount_cons_false] at hle
      obtain ⟨r, hr, hidx⟩ := ih k hk hle
      refine ⟨r + 1, by rwa [maskLive_cons_succ], ?_⟩
      rw [liveIdx, liveUpTo_cons_false]
      rw [liveIdx] at hidx
      omega

/-! ### The accumulate/index machinery of `_paginate_with_dead_link_mask` -/

theorem maskInts_length (mask : List Bool) :
    (maskInts mask).length = mask.length := by
  simp [maskInts]

theorem accumulate_maskInts_getElem? (mask : List Bool) (i : Nat)
    (h : i < mask.length) :
    (accumulate (maskInts mask))[i]? = some (liveUpTo mask (i + 1)) := by
  rw [accumulate, accumulateFrom_getElem? 0 _ i (by simpa [maskInts] using h)]
  congr 1
  rw [Nat.zero_add, liveUpTo, liveCount]
  congr 1
  simp [maskInts, List.map_take]

theorem accumulate_maskInts_getElem?_inv (mask : List Bool) (i x : Nat)
    (h : (accumulate (maskInts mask))[i]? = some x) :
    i < mask.length ∧ x = liveUpTo mask (i + 1) := by
  have hlen : i < mask.length := by
    by_contra hge
    have hlen2 : (accumulate (maskInts mask)).length ≤ i := by
      rw [accumulate, accumulateFrom_length, maskInts_length]
      omega
    rw [List.getElem?_eq_none hlen2] at h
    simp at h
  rw [accumulate_maskInts_getElem? mask i hlen] at h
  exact ⟨hlen, (Option.some.inj h).symm⟩

theorem first_liveUpTo_live (mask : List Bool) (k i : Nat) (hk : 1 ≤ k)
    (hidx : liveUpTo mask (i + 1) = k)
    (hmin : ∀ j, j < i → liveUpTo mask (j + 1) ≠ k) :
    maskLive mask i = true := by
  cases hb : maskLive mask i with
  | true => rfl
  | false =>
    exfalso
    have hstep := liveUpTo_succ_dead mask i hb
    cases i with
    | zero =>
      rw [hstep, liveUpTo_zero] at hidx
      omega
    | succ j =>
      rw [hstep] at hidx
      exact hmin j (by omega) hidx

theorem indexOfVal_accumulate_spec (mask : List Bool) (k : Nat)
    (hk : 1 ≤ k) (hle : k ≤ liveCount mask) :
    ∃ i, indexOfVal k (accumulate (maskInts mask)) = some i ∧
      maskLive mask i = true ∧ liveIdx mask i = k ∧
      ∀ j, j < i → liveIdx mask j ≠ k := by
  obtain ⟨r, hr, hidxr⟩ := exists_liveIdx_eq mask k hk hle
  have hrlen := maskLive_lt_length mask r hr
  have hget : (accumulate (maskInts mask))[r]? = some k := by
    rw [accumulate_maskInts_getElem? mask r hrlen]
    rw [liveIdx] at hidxr
    rw [hidxr]
  obtain ⟨i, hi⟩ : ∃ i, indexOfVal k (accumulate (maskInts mask)) = some i := by
    cases hx : indexOfVal k (accumulate (maskInts mask)) with
    | none => exact absurd hget (indexOfVal_none _ _ hx r)
    | some i => exact ⟨i, rfl⟩
  obtain ⟨hgeti, hmin⟩ := indexOfVal_some _ _ _ hi
  obtain ⟨hilen, hival⟩ := accumulate_maskInts_getElem?_inv mask i k hgeti
  have hminIdx : ∀ j, j < i → liveIdx mask j ≠ k := by
    intro j hj hc
    have hjlen : j < mask.length := by omega
    have hgj : (accumulate (maskInts mask))[j]? = some k := by
      rw [accumulate_maskInts_getElem? mask j hjlen]
      rw [liveIdx] at hc
      rw [hc]
    exact hmin j hj hgj
  have hlive : maskLive mask i = true :=
    first_liveUpTo_live mask k i hk hival.symm (fun j hj => hminIdx j hj)
  exact ⟨i, hi, hlive, hival.symm, hminIdx⟩

/-- Core lemma about `_paginate_with_dead_link_mask` when the mask already
records at least `page_size * page` live results: the function succeeds, the
slice ends one past the rank of the `(page_size * page)`-th live result
(minimal such rank), the slice starts at 0 for page 1 and otherwise at the
(minimal) rank of the `(page_size * (page - 1) + 1)`-th live result. -/
theorem paginate_spec (mask : List Bool) (ps p : Nat)
    (hps : 1 ≤ ps) (hp : 1 ≤ p) (h : ps * p ≤ liveCount mask) :
    ∃ st en, paginateWithDeadLinkMask mask ps p = some (st, en) ∧
      1 ≤ en ∧ maskLive mask (en - 1) = true ∧ liveIdx mask (en - 1) = ps * p ∧
      (∀ j, j < en - 1 → liveIdx mask j ≠ ps * p) ∧
      (p = 1 → st = 0) ∧
      (1 < p → maskLive mask st = true ∧ liveIdx mask st = ps * (p - 1) + 1 ∧
        ∀ j, j < st → liveIdx mask j ≠ ps * (p - 1) + 1) := by
  have hppos : 1 ≤ ps * p := Nat.mul_pos (by omega) (by omega)
  have hne : mask ≠ [] := by
    intro hnil
    subst hnil
    simp [liveCount, maskInts] at h
    omega
  have hsplit : ps * (p - 1) + ps = ps * p := by
    cases p with
    | zero => omega
    | succ q => simp [Nat.mul_succ]
  have hnotlt : ¬ liveCount mask < ps * (p - 1) := by omega
  obtain ⟨e, he, helive, heidx, hemin⟩ :=
    indexOfVal_accumulate_spec mask (ps * p) hppos h
  rcases Nat.lt_or_ge 1 p with hp2 | hp1
  · have hk0 : ps * (p - 1) + 1 ≤ liveCount mask := by omega
    obtain ⟨i, hiv, hilive, hiidx, himin⟩ :=
      indexOfVal_accumulate_spec mask (ps * (p - 1) + 1) (by omega) hk0
    refine ⟨i, e + 1, ?_, by omega, by simpa using helive, by simpa using heidx,
      by simpa using hemin, by omega, fun _ => ⟨hilive, hiidx, himin⟩⟩
    simp only [paginateWithDeadLinkMask, if_neg hne, if_neg hnotlt,
      if_pos hp2, if_neg (show ¬ liveCount mask < ps * p by omega), hiv, he,
      Option.map_some']
  · have hp1' : p = 1 := by omega
    subst hp1'
    refine ⟨0, e + 1, ?_, by omega, by simpa using helive, by simpa using heidx,
      by simpa using hemin, fun _ => rfl, fun hc => absurd hc (by omega)⟩
    simp only [paginateWithDeadLinkMask, if_neg hne, if_neg hnotlt,
      if_neg (show ¬ (1 : Nat) < 1 by omega),
      if_neg (show ¬ liveCount mask < ps * 1 by omega), he, Option.map_some']

/-- The live ranks inside a successful masked slice are exactly those whose
cumulative live ordinal lies in `(page_size*(page-1), page_size*page]`. -/
theorem paginate_slice_live_char (mask : List Bool) (ps p st en : Nat)
    (hps : 1 ≤ ps) (hp : 1 ≤ p) (h : ps * p ≤ liveCount mask)
    (hpag : paginateWithDeadLinkMask mask ps p = some (st, en)) :
    ∀ r : Nat, (maskLive mask r = true ∧ st ≤ r ∧ r < en) ↔
      (maskLive mask r = true ∧ ps * (p - 1) + 1 ≤ liveIdx mask r ∧
        liveIdx mask r ≤ ps * p) := by
  obtain ⟨st', en', hpag', hen1, helive, heidx, hemin, hst1, hst2⟩ :=
    paginate_spec mask ps p hps hp h
  rw [hpag] at hpag'
  have hpair := Option.some.inj hpag'
  obtain ⟨rfl, rfl⟩ : st = st' ∧ en = en' :=
    ⟨congrArg Prod.fst hpair, congrArg Prod.snd hpair⟩
  intro r
  constructor
  · rintro ⟨hlive, hstr, hren⟩
    refine ⟨hlive, ?_, ?_⟩
    · rcases Nat.lt_or_ge 1 p with hp2 | hp1
      · obtain ⟨hstlive, hstidx, _⟩ := hst2 hp2
        rcases Nat.eq_or_lt_of_le hstr with heq | hlt
        · rw [← heq]
          omega
        · have := liveIdx_strictMono mask hlt hlive
          omega
      · have hp1' : p = 1 := by omega
        subst hp1'
        have := liveIdx_pos mask r hlive
        simpa using this
    · have hmono := liveUpTo_mono mask (show r + 1 ≤ en - 1 + 1 by omega)
      rw [liveIdx] at heidx ⊢
      omega
  · rintro ⟨hlive, hk0, hkp⟩
    refine ⟨hlive, ?_, ?_⟩
    · rcases Nat.lt_or_ge 1 p with hp2 | hp1
      · obtain ⟨hstlive, hstidx, _⟩ := hst2 hp2
        by_contra hlt
        push_neg at hlt
        have := liveIdx_strictMono mask hlt hstlive
        omega
      · have hp1' : p = 1 := by omega
        subst hp1'
        rw [hst1 rfl]
        omega
    · by_contra hge
      push_neg at hge
      have hlt : en - 1 < r := by omega
      have := liveIdx_strictMono mask hlt hlive
      omega

/-! ### Step lemmas for `_post_process_results` -/

theorem postProcess_no_filter (fuel : Nat) (hits : List Hit)
    (st en ps : Nat) (sr : List Hit) :
    postProcessResults (fuel + 1) hits st en ps sr false =
      (some (sr.take ps), []) := by
  simp [postProcessResults]

theorem postProcess_enough_live (fuel : Nat) (hits : List Hit)
    (st en ps : Nat) (sr : List Hit)
    (hge : ps ≤ (sr.filter (fun r => r.live)).length) :
    postProcessResults (fuel + 1) hits st en ps sr true =
      (some ((sr.filter (fun r => r.live)).take ps), []) := by
  simp only [postProcessResults, if_true]
  rw [if_neg (by omega)]

theorem postProcess_window_capped (fuel : Nat) (hits : List Hit)
    (st en ps : Nat) (sr : List Hit)
    (hlt : (sr.filter (fun r => r.live)).length < ps)
    (hwin : ELASTICSEARCH_MAX_RESULT_WINDOW < st + (en + en / 2)) :
    postProcessResults (fuel + 1) hits st en ps sr true =
      (some (sr.filter (fun r => r.live)), []) := by
  simp only [postProcessResults, if_true]
  rw [if_pos hlt, if_pos (by omega)]

theorem postProcess_widen_step (fuel : Nat) (hits : List Hit)
    (st en ps : Nat) (sr : List Hit)
    (hlt : (sr.filter (fun r => r.live)).length < ps)
    (hwin : st + (en + en / 2) ≤ ELASTICSEARCH_MAX_RESULT_WINDOW) :
    postProcessResults (fuel + 1) hits st en ps sr true =
      ((postProcessResults fuel hits st (en + en / 2) ps
          (sliceHits hits st (en + en / 2)) true).1,
        (st, en + en / 2) ::
          (postProcessResults fuel hits st (en + en / 2) ps
            (sliceHits hits st (en + en / 2)) true).2) := by
  simp only [postProcessResults, if_true]
  rw [if_pos hlt, if_neg (by omega)]

/-! ### Counting lemmas for `_quote_escape` -/

theorem countQuotes_cons (c : Char) (t : List Char) :
    countQuotes (c :: t) = (if c = '"' then 1 else 0) + countQuotes t := by
  by_cases hc : c = '"'
  · simp [countQuotes, List.filter_cons, hc]
    omega
  · simp [countQuotes, List.filter_cons, hc]

theorem countQuotes_append (a b : List Char) :
    countQuotes (a ++ b) = countQuotes a + countQuotes b := by
  simp [countQuotes]

theorem countQuotes_escapeQuoteChar (c : Char) :
    countQuotes (escapeQuoteChar c) = (if c = '"' then 1 else 0) := by
  by_cases hc : c = '"' <;> simp [escapeQuoteChar, countQuotes, hc]

theorem countQuotes_flatMap_escape (s : List Char) :
    countQuotes (s.flatMap escapeQuoteChar) = countQuotes s := by
  induction s with
  | nil => rfl
  | cons c t ih =>
    rw [List.flatMap_cons, countQuotes_append, ih, countQuotes_cons,
      countQuotes_escapeQuoteChar]

theorem length_flatMap_escape (s : List Char) :
    (s.flatMap escapeQuoteChar).length = s.length + countQuotes s := by
  induction s with
  | nil => rfl
  | cons c t ih =>
    rw [List.flatMap_cons, List.length_append, ih, countQuotes_cons]
    by_cases hc : c = '"' <;> simp [escapeQuoteChar, hc] <;> omega

/-! ### Claim theorems -/

/-- C10: `_quote_escape` leaves strings with an even number of double quotes
unchanged, escapes every double quote when the count is odd, always preserves
the number of double-quote characters, and is not idempotent on odd-quote
inputs. -/
theorem C10_quote_escape (s : List Char) :
    (countQuotes s % 2 = 0 → quoteEscape s = s) ∧
    (countQuotes s % 2 = 1 → quoteEscape s = s.flatMap escapeQuoteChar) ∧
    countQuotes (quoteEscape s) = countQuotes s ∧
    (countQuotes s % 2 = 1 → quoteEscape (quoteEscape s) ≠ quoteEscape s) := by
  refine ⟨?_, ?_, ?_, ?_⟩
  · intro h
    rw [quoteEscape, if_neg (by omega)]
  · intro h
    rw [quoteEscape, if_pos h]
  · by_cases h : countQuotes s % 2 = 1
    · rw [quoteEscape, if_pos h, countQuotes_flatMap_escape]
    · rw [quoteEscape, if_neg h]
  · intro h
    set t := quoteEscape s with ht
    have h2 : countQuotes t = countQuotes s := by
      rw [ht, quoteEscape, if_pos h, countQuotes_flatMap_escape]
    have hodd : countQuotes t % 2 = 1 := by omega
    have h3 : quoteEscape t = t.flatMap escapeQuoteChar := by
      rw [quoteEscape, if_pos hodd]
    intro hc
    rw [h3] at hc
    have hlen := congrArg List.length hc
    rw [length_flatMap_escape] at hlen
    omega

/-- C10 witness: a single unmatched quote is escaped, and escaping is not
idempotent there. -/
theorem C10_quote_escape_witness :
    quoteEscape ['"'] = ['\\', '"'] ∧
    quoteEscape (quoteEscape ['"']) ≠ quoteEscape ['"'] := by
  have h := C10_quote_escape ['"']
  refine ⟨?_, h.2.2.2 (by decide)⟩
  rw [h.2.1 (by decide)]
  rfl

theorem paginate_empty_mask (ps p : Nat) :
    paginateWithDeadLinkMask [] ps p = some (0, inflatedEnd ps p) := by
  simp [paginateWithDeadLinkMask]

theorem paginate_short_mask (mask : List Bool) (ps p : Nat) (hne : mask ≠ [])
    (hlt : liveCount mask < ps * (p - 1)) :
    paginateWithDeadLinkMask mask ps p = some (mask.length, inflatedEnd ps p) := by
  simp only [paginateWithDeadLinkMask]
  rw [if_neg hne, if_pos hlt]

/-- C3 counterexample: with the one-entry all-dead mask `[false]`,
`page_size = 1`, `page = 2`, the code returns `start = len(mask) = 1`, not
`start = 0` as the claim states for the insufficient-mask case. -/
theorem C3_counterexample :
    paginateWithDeadLinkMask [false] 1 2 = some (1, 4) ∧ (1 : Nat) ≠ 0 := by
  constructor
  · rw [paginate_short_mask [false] 1 2 (by decide) (by decide), inflatedEnd_eq]
    rfl
  · decide

/-- C3 (amended): with no mask the slice is
`(0, ceil(page_size*page/(1 - DEAD_LINK_RATIO)))`; with a mask whose live count
has not reached `page_size*(page-1)` the slice is `(len(mask), ceil(...))`
(start is the mask length, not 0); and the inflated end equals
`2*page_size*page`. -/
theorem C3_worst_case_window (mask : List Bool) (ps p : Nat) :
    (mask = [] → paginateWithDeadLinkMask mask ps p = some (0, inflatedEnd ps p)) ∧
    (mask ≠ [] → liveCount mask < ps * (p - 1) →
      paginateWithDeadLinkMask mask ps p = some (mask.length, inflatedEnd ps p)) ∧
    inflatedEnd ps p = 2 * (ps * p) := by
  refine ⟨fun hm => ?_, fun hne hlt => paginate_short_mask mask ps p hne hlt,
    inflatedEnd_eq ps p⟩
  subst hm
  exact paginate_empty_mask ps p

/-- C3 witness: both worst-case branches evaluated at concrete inputs. -/
theorem C3_worst_case_window_witness :
    paginateWithDeadLinkMask [] 2 3 = some (0, inflatedEnd 2 3) ∧
    paginateWithDeadLinkMask [false] 1 3 = some (1, inflatedEnd 1 3) := by
  refine ⟨(C3_worst_case_window [] 2 3).1 rfl, ?_⟩
  have h := (C3_worst_case_window [false] 1 3).2.1 (by decide) (by decide)
  simpa using h

/-- C2 counterexample: for `page_size = 100`, `page = 51`, `filter_dead`
false, the computed slice is `(5000, 5100)` whose end does not exceed the
window, yet `_get_query_slice` raises the deep-pagination error (the code
tests `start + end`, not `end`). -/
theorem C2_counterexample :
    getQuerySlice [] 100 51 false = Except.error DEEP_PAGINATION_ERROR ∧
    rawSlice [] 100 51 false = some (5000, 5100) ∧
    5100 ≤ ELASTICSEARCH_MAX_RESULT_WINDOW := by
  exact ⟨rfl, rfl, by decide⟩

/-- C2 (amended): `_get_query_slice` raises the deep-pagination error exactly
when `start_slice + end_slice` exceeds the maximum result window, and in that
case `search` returns the error having executed no index query. -/
theorem C2_deep_pagination_guard (mask : List Bool) (ps p : Nat) (fd : Bool)
    (st en : Nat) (hraw : rawSlice mask ps p fd = some (st, en)) :
    (getQuerySlice mask ps p fd = Except.error DEEP_PAGINATION_ERROR ↔
      ELASTICSEARCH_MAX_RESULT_WINDOW < st + en) ∧
    (ELASTICSEARCH_MAX_RESULT_WINDOW < st + en →
      ∀ (hits : List Hit) (fuel : Nat),
        search hits mask ps p fd fuel =
          (Except.error DEEP_PAGINATION_ERROR, [])) := by
  have hq : getQuerySlice mask ps p fd =
      if st + en > ELASTICSEARCH_MAX_RESULT_WINDOW then
        Except.error DEEP_PAGINATION_ERROR
      else Except.ok (st, en) := by
    simp only [getQuerySlice, hraw]
  constructor
  · constructor
    · intro herr
      by_contra hle
      rw [hq, if_neg (by omega)] at herr
      simp at herr
    · intro hgt
      rw [hq, if_pos (by omega)]
  · intro hgt hits fuel
    simp only [search, hq, if_pos (by omega : st + en > ELASTICSEARCH_MAX_RESULT_WINDOW)]

/-- C2 witness: the guard applied at the concrete deep request. -/
theorem C2_deep_pagination_guard_witness :
    (getQuerySlice [] 100 51 false = Except.error DEEP_PAGINATION_ERROR ↔
      ELASTICSEARCH_MAX_RESULT_WINDOW < 5000 + 5100) ∧
    search [] [] 100 51 false 1 = (Except.error DEEP_PAGINATION_ERROR, []) := by
  have h := C2_deep_pagination_guard [] 100 51 false 5000 5100 rfl
  exact ⟨h.1, h.2 (by decide) [] 1⟩

/-- C8 counterexample: for `page_size = 20` and a raw total of 100000 hits
the code caps `page_count` at 250 (`int((5000 + 10) / 20)`), while the claim
predicts `min(5000, 10000 / 20) = 500`. -/
theorem C8_counterexample :
    (getResultAndPageCount 100000 [] 20).2 = 250 ∧
    min (100000 / 20) (ELASTICSEARCH_MAX_RESULT_WINDOW / 20) = 500 ∧
    (250 : Nat) ≠ 500 := by
  refine ⟨?_, by decide, by decide⟩
  simp [getResultAndPageCount, lastAllowedPage_eq]

/-- C8 (amended): `page_count = min(natural_page_count, last_allowed_page)`
where `last_allowed_page = int((5000 + page_size/2)/page_size)` (in natural
arithmetic `(10000 + page_size) / (2*page_size)`), which is exactly the
deepest page whose unfiltered slice passes the `start+end <= 10000` window
check — not `10000 / page_size`. -/
theorem C8_page_count_cap (totalHits : Nat) (results : List Hit) (ps : Nat)
    (hps : 1 ≤ ps) :
    (getResultAndPageCount totalHits results ps).2 =
      min (totalHits / ps) (lastAllowedPage ps) ∧
    lastAllowedPage ps = (10000 + ps) / (2 * ps) ∧
    (∀ p, 1 ≤ p →
      (ps * (p - 1) + ps * p ≤ ELASTICSEARCH_MAX_RESULT_WINDOW ↔
        p ≤ lastAllowedPage ps)) := by
  refine ⟨?_, lastAllowedPage_eq ps, ?_⟩
  · simp only [getResultAndPageCount]
    split
    · rfl
    · rfl
  · intro p hp
    rw [lastAllowedPage_eq]
    show ps * (p - 1) + ps * p ≤ 10000 ↔ p ≤ (10000 + ps) / (2 * ps)
    rw [Nat.le_div_iff_mul_le (by omega : 0 < 2 * ps)]
    cases p with
    | zero => omega
    | succ q =>
      rw [show q + 1 - 1 = q from rfl, Nat.mul_succ]
      rw [show (q + 1) * (2 * ps) = 2 * (ps * q) + 2 * ps by ring]
      omega

/-- C8 witness: the cap at `page_size = 20`, raw total 100000. -/
theorem C8_page_count_cap_witness :
    (getResultAndPageCount 100000 [] 20).2 =
      min (100000 / 20) (lastAllowedPage 20) ∧
    (20 * (251 - 1) + 20 * 251 ≤ ELASTICSEARCH_MAX_RESULT_WINDOW ↔
      251 ≤ lastAllowedPage 20) := by
  have h := C8_page_count_cap 100000 [] 20 (by decide)
  exact ⟨h.1, h.2.2 251 (by decide)⟩

/-- C9 counterexample: at `page_size = 20000` with raw total 30000 and 7
live results, the natural page count is `1` (not zero), yet the code still
corrects `result_count` down to 7 because the *capped* page count is zero;
the claim's "otherwise result_count is the raw total" predicts 30000. -/
theorem C9_counterexample :
    (getResultAndPageCount 30000
      [⟨0, true⟩, ⟨1, true⟩, ⟨2, true⟩, ⟨3, true⟩, ⟨4, true⟩,
        ⟨5, true⟩, ⟨6, true⟩] 20000).1 = 7 ∧
    30000 / 20000 = 1 ∧ (7 : Nat) ≠ 30000 := by
  refine ⟨?_, by decide, by decide⟩
  simp [getResultAndPageCount, lastAllowedPage_eq]

/-- C9 (amended): for `1 <= page_size <= 10000` (where the allowed-page cap
is at least 1, so the capped page count vanishes exactly when the natural one
does), `result_count` is corrected down to the number of live results found
when fewer than `page_size` live results were found and the natural page
count is zero, and is the raw total otherwise. -/
theorem C9_result_count_correction (totalHits : Nat) (results : List Hit)
    (ps : Nat) (hps : 1 ≤ ps) (hps2 : ps ≤ 10000) :
    (getResultAndPageCount totalHits results ps).1 =
      if results.length < ps ∧ totalHits / ps = 0 then results.length
      else totalHits := by
  have hlast : 1 ≤ lastAllowedPage ps := by
    rw [lastAllowedPage_eq]
    rw [Nat.le_div_iff_mul_le (by omega : 0 < 2 * ps)]
    omega
  have hmin : (min (totalHits / ps) (lastAllowedPage ps) = 0) ↔
      totalHits / ps = 0 := by omega
  have hcond : (results.length < ps ∧
        min (totalHits / ps) (lastAllowedPage ps) = 0) ↔
      (results.length < ps ∧ totalHits / ps = 0) := by rw [hmin]
  simp only [getResultAndPageCount]
  by_cases hc : results.length < ps ∧ totalHits / ps = 0
  · rw [if_pos (hcond.mpr hc), if_pos hc]
  · rw [if_neg (fun hx => hc (hcond.mp hx)), if_neg hc]

/-- C9 witness: the spec scenario — 7 live results, `page_size = 20`, zero
natural pages — yields `result_count = 7`. -/
theorem C9_result_count_correction_witness :
    (getResultAndPageCount 15
      [⟨0, true⟩, ⟨1, true⟩, ⟨2, true⟩, ⟨3, true⟩, ⟨4, true⟩,
        ⟨5, true⟩, ⟨6, true⟩] 20).1 = 7 := by
  have h := C9_result_count_correction 15
    [⟨0, true⟩, ⟨1, true⟩, ⟨2, true⟩, ⟨3, true⟩, ⟨4, true⟩,
      ⟨5, true⟩, ⟨6, true⟩] 20 (by decide) (by decide)
  rw [h]
  decide

/-- C5 counterexample: with `start = 0`, `end = 3` and an all-dead slice the
widening recursion re-queries with `end = 3 + int(3/2) = 4`; the increase is
1, which is strictly less than 50% of the span `3 - 0 = 1.5`. -/
theorem C5_counterexample :
    (postProcessResults 2 [⟨0, false⟩, ⟨1, false⟩, ⟨2, false⟩, ⟨3, true⟩] 0 3 1
      (sliceHits [⟨0, false⟩, ⟨1, false⟩, ⟨2, false⟩, ⟨3, true⟩] 0 3) true).2 =
      [(0, 4)] ∧
    2 * (4 - 3) < 3 - 0 := by
  exact ⟨by decide, by decide⟩

/-- C5 (amended): whenever fewer than `page_size` live results survive and
the widened window passes the ceiling check, `_post_process_results` recurses
with `end` increased to `end + int(end/2)` — an increase of at least 50% of
the current span rounded down, `(end - start) / 2`, and a strict increase
whenever `end >= 2` — re-executing the slice query `(start, end + end/2)`. -/
theorem C5_widening_monotone (fuel : Nat) (hits : List Hit) (st en ps : Nat)
    (sr : List Hit)
    (hlt : (sr.filter (fun r => r.live)).length < ps)
    (hwin : st + (en + en / 2) ≤ ELASTICSEARCH_MAX_RESULT_WINDOW) :
    postProcessResults (fuel + 1) hits st en ps sr true =
      ((postProcessResults fuel hits st (en + en / 2) ps
          (sliceHits hits st (en + en / 2)) true).1,
        (st, en + en / 2) ::
          (postProcessResults fuel hits st (en + en / 2) ps
            (sliceHits hits st (en + en / 2)) true).2) ∧
    (en - st) / 2 ≤ (en + en / 2) - en ∧
    (2 ≤ en → en < en + en / 2) := by
  refine ⟨postProcess_widen_step fuel hits st en ps sr hlt hwin, by omega,
    by omega⟩

/-- C5 witness: one widening step at `start = 0`, `end = 10`. -/
theorem C5_widening_monotone_witness :
    postProcessResults 1 [] 0 10 1 [] true = (none, [(0, 15)]) ∧
    ((10 : Nat) - 0) / 2 ≤ 15 - 10 := by
  have h := C5_widening_monotone 0 [] 0 10 1 [] (by decide) (by decide)
  refine ⟨?_, h.2.1⟩
  rw [h.1]
  rfl

/-- C6: at `start = 0`, `end = 1`, `page_size = 1` with every result dead,
the widening adds `int(1/2) = 0`, so the recursion repeats an identical state
and never produces a result no matter how much fuel it is given: the code has
no iteration/depth cap, and its termination otherwise rests solely on the
result-window check. -/
theorem C6_unbounded_recursion : ∀ fuel : Nat,
    (postProcessResults fuel [⟨0, false⟩] 0 1 1
      (sliceHits [⟨0, false⟩] 0 1) true).1 = none := by
  intro fuel
  induction fuel with
  | zero => rfl
  | succ n ih =>
    have hstep := postProcess_widen_step n [⟨0, false⟩] 0 1 1
      (sliceHits [⟨0, false⟩] 0 1) (by decide) (by decide)
    rw [show (1 : Nat) + 1 / 2 = 1 from rfl] at hstep
    rw [hstep]
    exact ih

/-- C7: every result list `_post_process_results` returns has length at most
`page_size`, and when the executed slice already contains at least
`page_size` live results the returned page is the first `page_size` of them,
of length exactly `page_size`. -/
theorem C7_results_length_invariant :
    ∀ (fuel : Nat) (hits : List Hit) (st en ps : Nat) (sr : List Hit)
      (fd : Bool),
      (∀ r, (postProcessResults fuel hits st en ps sr fd).1 = some r →
        r.length ≤ ps) ∧
      (1 ≤ fuel → fd = true → ps ≤ (sr.filter (fun x => x.live)).length →
        (postProcessResults fuel hits st en ps sr fd).1 =
          some ((sr.filter (fun x => x.live)).take ps) ∧
        ((sr.filter (fun x => x.live)).take ps).length = ps) := by
  intro fuel
  induction fuel with
  | zero =>
    intro hits st en ps sr fd
    constructor
    · intro r hr
      simp [postProcessResults] at hr
    · intro h1
      omega
  | succ n ih =>
    intro hits st en ps sr fd
    constructor
    · intro r hr
      cases fd with
      | false =>
        rw [postProcess_no_filter] at hr
        obtain rfl := Option.some.inj hr
        simp
      | true =>
        by_cases hlt : (sr.filter (fun x => x.live)).length < ps
        · by_cases hwin :
            ELASTICSEARCH_MAX_RESULT_WINDOW < st + (en + en / 2)
          · rw [postProcess_window_capped n hits st en ps sr hlt hwin] at hr
            obtain rfl := Option.some.inj hr
            omega
          · rw [postProcess_widen_step n hits st en ps sr hlt (by omega)]
              at hr
            exact (ih hits st (en + en / 2) ps
              (sliceHits hits st (en + en / 2)) true).1 r hr
        · rw [postProcess_enough_live n hits st en ps sr (by omega)] at hr
          obtain rfl := Option.some.inj hr
          simp
    · intro h1 hfd hge
      subst hfd
      rw [postProcess_enough_live n hits st en ps sr hge]
      refine ⟨rfl, ?_⟩
      simp [List.length_take]
      omega

/-- C7 witness: a slice with two live hits at `page_size = 1` returns exactly
one hit. -/
theorem C7_results_length_invariant_witness :
    (postProcessResults 1 [] 0 5 1 [⟨0, true⟩, ⟨1, true⟩] true).1 =
      some [⟨0, true⟩] ∧
    ([⟨0, true⟩] : List Hit).length ≤ 1 := by
  have h := (C7_results_length_invariant 1 [] 0 5 1 [⟨0, true⟩, ⟨1, true⟩]
    true).2 (by decide) rfl (by decide)
  refine ⟨?_, by decide⟩
  rw [h.1]
  rfl

/-- C4: when the mask records at least `page_size * page` live results, the
slice starts at 0 for page 1 and otherwise at the (unique, minimal) rank of
the `(page_size*(page-1)+1)`-th live result, and ends one past the (unique,
minimal) rank of the `(page_size*page)`-th live result — the end rank is
itself live, so the slice never over-fetches past a boundary. -/
theorem C4_masked_slice_exact (mask : List Bool) (ps p : Nat)
    (hps : 1 ≤ ps) (hp : 1 ≤ p) (h : ps * p ≤ liveCount mask) :
    ∃ st en, paginateWithDeadLinkMask mask ps p = some (st, en) ∧
      1 ≤ en ∧ maskLive mask (en - 1) = true ∧ liveIdx mask (en - 1) = ps * p ∧
      (∀ j, j < en - 1 → liveIdx mask j ≠ ps * p) ∧
      (p = 1 → st = 0) ∧
      (1 < p → maskLive mask st = true ∧ liveIdx mask st = ps * (p - 1) + 1 ∧
        ∀ j, j < st → liveIdx mask j ≠ ps * (p - 1) + 1) :=
  paginate_spec mask ps p hps hp h

/-- C4 witness: mask `[live, dead, live, live]`, `page_size = 1`, `page = 2`
— the slice is `(2, 3)`: rank 2 carries the 2nd live result. -/
theorem C4_masked_slice_exact_witness :
    ∃ st en,
      paginateWithDeadLinkMask [true, false, true, true] 1 2 = some (st, en) ∧
      1 ≤ en ∧ maskLive [true, false, true, true] (en - 1) = true ∧
      liveIdx [true, false, true, true] (en - 1) = 1 * 2 ∧
      (∀ j, j < en - 1 → liveIdx [true, false, true, true] j ≠ 1 * 2) ∧
      (2 = 1 → st = 0) ∧
      (1 < 2 → maskLive [true, false, true, true] st = true ∧
        liveIdx [true, false, true, true] st = 1 * (2 - 1) + 1 ∧
        ∀ j, j < st → liveIdx [true, false, true, true] j ≠ 1 * (2 - 1) + 1) :=
  C4_masked_slice_exact [true, false, true, true] 1 2 (by decide) (by decide)
    (by decide)

/-- C1: with a fixed mask recording at least `page_size * N` live results,
the slice computed for each page `p <= N` covers exactly the live ranks whose
cumulative ordinal lies in `(page_size*(p-1), page_size*p]` — consecutive
pages are gap-free and duplicate-free — and the live ranks of any two
distinct pages `p, q <= N` are disjoint. -/
theorem C1_pagination_stability (mask : List Bool) (ps p N : Nat)
    (hps : 1 ≤ ps) (hp : 1 ≤ p) (hpN : p ≤ N)
    (hmask : ps * N ≤ liveCount mask) :
    ∃ st en, paginateWithDeadLinkMask mask ps p = some (st, en) ∧
      (∀ r : Nat, (maskLive mask r = true ∧ st ≤ r ∧ r < en) ↔
        (maskLive mask r = true ∧ ps * (p - 1) + 1 ≤ liveIdx mask r ∧
          liveIdx mask r ≤ ps * p)) ∧
      (∀ q st' en', 1 ≤ q → q ≤ N → q ≠ p →
        paginateWithDeadLinkMask mask ps q = some (st', en') →
        ∀ r : Nat, maskLive mask r = true → st ≤ r → r < en →
          ¬(st' ≤ r ∧ r < en')) := by
  have hle : ps * p ≤ liveCount mask :=
    le_trans (Nat.mul_le_mul_left ps hpN) hmask
  obtain ⟨st, en, hpag, _, _, _, _, _, _⟩ := paginate_spec mask ps p hps hp hle
  refine ⟨st, en, hpag,
    paginate_slice_live_char mask ps p st en hps hp hle hpag, ?_⟩
  intro q st' en' hq hqN hqp hpagq r hlive hstr hren hq'
  have hleq : ps * q ≤ liveCount mask :=
    le_trans (Nat.mul_le_mul_left ps hqN) hmask
  have hcharp := (paginate_slice_live_char mask ps p st en hps hp hle
    hpag r).mp ⟨hlive, hstr, hren⟩
  have hcharq := (paginate_slice_live_char mask ps q st' en' hps hq hleq
    hpagq r).mp ⟨hlive, hq'.1, hq'.2⟩
  rcases Nat.lt_or_ge p q with hpq | hqp2
  · have : ps * p ≤ ps * (q - 1) := Nat.mul_le_mul_left ps (by omega)
    omega
  · have hqp3 : q < p := by omega
    have : ps * q ≤ ps * (p - 1) := Nat.mul_le_mul_left ps (by omega)
    omega

/-- C1 witness: mask `[live, dead, live, live]`, `page_size = 1`, `N = 3`,
page 2. -/
theorem C1_pagination_stability_witness :
    ∃ st en,
      paginateWithDeadLinkMask [true, false, true, true] 1 2 = some (st, en) ∧
      (∀ r : Nat,
        (maskLive [true, false, true, true] r = true ∧ st ≤ r ∧ r < en) ↔
        (maskLive [true, false, true, true] r = true ∧
          1 * (2 - 1) + 1 ≤ liveIdx [true, false, true, true] r ∧
          liveIdx [true, false, true, true] r ≤ 1 * 2)) ∧
      (∀ q st' en', 1 ≤ q → q ≤ 3 → q ≠ 2 →
        paginateWithDeadLinkMask [true, false, true, true] 1 q =
          some (st', en') →
        ∀ r : Nat, maskLive [true, false, true, true] r = true →
          st ≤ r → r < en → ¬(st' ≤ r ∧ r < en')) :=
  C1_pagination_stability [true, false, true, true] 1 2 3 (by decide)
    (by decide) (by decide) (by decide)
